import Mathlib

/-!
Verification of the chrome_charts repository against its specification.

The development shallowly embeds the program's core pipeline:
  * `core/helper.py`: the webkit timestamp codec (`date_from_webkit`,
    `date_to_webkit`), modelled over a Gregorian calendar on `Date`.
  * `core/app.py` (`History_Handler`): URL normalization (the regex in
    `_charts_from_history`), counting and ranking (`Counter.most_common`),
    top-N clamping, CLI rendering, and the jinja2 fallback in
    `create_charts`, plus `_get_history_age` over the visit table.

Machine integers play no role (Python has arbitrary precision); failure
paths (uncaught exceptions such as `IndexError`, `ValueError` from
`max([])` and `OverflowError` from datetime arithmetic) are modelled with
`Option`, `none` standing for an exception escaping the function.
-/

set_option maxRecDepth 20000

namespace ChromeCharts

/-! ## Calendar model (proleptic Gregorian, as implemented by Python `datetime`) -/

/-- A calendar date, the model of Python's `datetime.date` component and of
the `"%Y-%m-%d"` strings exchanged by `date_from_webkit`/`date_to_webkit`. -/
structure Date where
  year : Nat
  month : Nat
  day : Nat
deriving DecidableEq, Repr

/-- Gregorian leap-year rule, as used by Python's `datetime`. -/
def isLeap (y : Nat) : Bool :=
  (y % 4 == 0 && y % 100 != 0) || y % 400 == 0

/-- Number of days of month `m` in year `y` (Gregorian). -/
def daysInMonth (y m : Nat) : Nat :=
  if m = 2 then (if isLeap y then 29 else 28)
  else if m = 4 ∨ m = 6 ∨ m = 9 ∨ m = 11 then 30
  else 31

/-- Number of days of year `y`. -/
def yearLength (y : Nat) : Nat :=
  if isLeap y then 366 else 365

/-- A date `datetime.datetime.strptime` accepts that lies in the webkit
epoch range: year between 1601 and 9999 (datetime's upper bound), month
1..12, day within the month. -/
def ValidDate (d : Date) : Prop :=
  1601 ≤ d.year ∧ d.year ≤ 9999 ∧ 1 ≤ d.month ∧ d.month ≤ 12 ∧
    1 ≤ d.day ∧ d.day ≤ daysInMonth d.year d.month

instance : DecidablePred ValidDate := fun d => by
  unfold ValidDate; infer_instance

/-- Number of Gregorian leap years in `[1, y]`. -/
def leapCount (y : Nat) : Nat := y / 4 - y / 100 + y / 400

/-- Days elapsed from 1601-01-01 to Jan 1 of year `y` (for `y ≥ 1601`):
365 per year plus one per leap year in `[1601, y-1]`. -/
def daysBeforeYear (y : Nat) : Nat :=
  365 * (y - 1601) + (leapCount (y - 1) - leapCount 1600)

/-- Total number of days of the `k` consecutive months `m0, ..., m0+k-1`
of year `y`. -/
def msum : Nat → Nat → Nat → Nat
  | _, _, 0 => 0
  | y, m0, k + 1 => daysInMonth y m0 + msum y (m0 + 1) k

/-- Days elapsed from 1601-01-01 to date `d`: the value of
`(datetime(y,m,dd) - datetime(1601,1,1)).days` used by `date_to_webkit`. -/
def toDays (d : Date) : Nat :=
  daysBeforeYear d.year + msum d.year 1 (d.month - 1) + (d.day - 1)

/-- Locate the year containing day-index `n` (days counted from Jan 1 of
`y0`), returning the year and the remaining day-of-year. The fuel bounds
the number of years scanned; a 400-year era needs at most 399 steps. -/
def findYear : Nat → Nat → Nat → Nat × Nat
  | 0, y, n => (y, n)
  | fuel + 1, y, n =>
    if n < yearLength y then (y, n) else findYear fuel (y + 1) (n - yearLength y)

/-- Locate the month containing day-of-year `n` of year `y`, starting the
scan at month `m`; returns the month and remaining day-of-month offset. -/
def findMonth : Nat → Nat → Nat → Nat → Nat × Nat
  | 0, _, m, n => (m, n)
  | fuel + 1, y, m, n =>
    if n < daysInMonth y m then (m, n) else findMonth fuel y (m + 1) (n - daysInMonth y m)

/-- Assemble a date from the year scan (from base year `y0`) and the month
scan of the remaining day-of-year `n`. -/
def dateOfDaysAux (y0 n : Nat) : Date :=
  ⟨(findYear 399 y0 n).1,
   (findMonth 11 (findYear 399 y0 n).1 1 (findYear 399 y0 n).2).1,
   (findMonth 11 (findYear 399 y0 n).1 1 (findYear 399 y0 n).2).2 + 1⟩

/-- The date lying `n` days after 1601-01-01: the date computed by
`datetime(1601,1,1) + timedelta(...)` in `date_from_webkit`. The 400-year
Gregorian cycle (146097 days) is split off first so the year scan stays
within one era. -/
def dateOfDays (n : Nat) : Date :=
  dateOfDaysAux (1601 + n / 146097 * 400) (n % 146097)

/-- Day index of 9999-12-31, the last date representable by Python
`datetime`; beyond it the addition in `date_from_webkit` raises
`OverflowError`. -/
def maxDays : Nat := toDays ⟨9999, 12, 31⟩

/-- `helper.date_from_webkit`: interprets `timestamp` as microseconds since
1601-01-01 and returns the calendar date (the `"%Y-%m-%d"` string it
formats). `none` models the `OverflowError` raised when the result exceeds
`datetime.max` (9999-12-31). -/
def date_from_webkit (timestamp : Nat) : Option Date :=
  if timestamp / 86400000000 ≤ maxDays then some (dateOfDays (timestamp / 86400000000))
  else none

/-- Number of decimal digits of `n` as printed by Python's `'{:d}'`
formatting, written as an explicit comparison chain; the values reachable
in this program (at most `toDays ⟨9999,12,31⟩ * 86400 < 10^12`) are far
below the last threshold, beyond which the exact count does not matter to
`pad17` (no padding happens at width ≥ 17 either way). -/
def numDigits (n : Nat) : Nat :=
  if n < 10 then 1 else if n < 100 then 2 else if n < 1000 then 3
  else if n < 10000 then 4 else if n < 100000 then 5 else if n < 1000000 then 6
  else if n < 10000000 then 7 else if n < 100000000 then 8 else if n < 1000000000 then 9
  else if n < 10000000000 then 10 else if n < 100000000000 then 11
  else if n < 1000000000000 then 12 else if n < 10000000000000 then 13
  else if n < 100000000000000 then 14 else if n < 1000000000000000 then 15
  else if n < 10000000000000000 then 16 else if n < 100000000000000000 then 17
  else 18

/-- Numeric value of Python's `'{:<017d}'.format(n)`: the decimal digits of
`n` left-justified in a field of width 17 filled with `'0'`, i.e. `n` with
`17 - numDigits n` zeros appended (and `n` unchanged once it already has at
least 17 digits). -/
def pad17 (n : Nat) : Nat :=
  if numDigits n ≤ 17 then n * 10 ^ (17 - numDigits n) else n

/-- `helper.date_to_webkit`: parses the date (midnight, so
`diff.seconds = diff.microseconds = 0`), takes
`diff.days * 86400` seconds since the 1601 epoch, and returns the integer
value of the `'{:<017d}'`-formatted string. -/
def date_to_webkit (d : Date) : Nat :=
  pad17 (toDays d * 86400)

/-- Sum of the year lengths of the `k` consecutive years `y0, ..., y0+k-1`
(proof-side description of the days `findYear` consumes). -/
def sumYL : Nat → Nat → Nat
  | _, 0 => 0
  | y0, k + 1 => yearLength y0 + sumYL (y0 + 1) k

/-! ## URL normalizer (`_charts_from_history`, regex
`^https*:\/\/[a-z 0-9 \.\-\:]*\/` with `re.IGNORECASE`) -/

/-- Characters admitted by the regex character class `[a-z 0-9 \.\-\:]`
under `re.IGNORECASE`: ASCII letters (both cases), digits, and the literal
characters space, dot, hyphen, colon (the two spaces in the class source
put the space character in the class). -/
def isHostChar (c : Char) : Bool :=
  c.isLower || c.isUpper || c.isDigit || c == ' ' || c == '.' || c == '-' || c == ':'

/-- Match `[a-z 0-9 \.\-\:]*\/` at the head of the list: consume class
characters up to the first `'/'` and return the matched length (including
the slash), or `none` when a non-class, non-slash character (or the end of
the string) is reached first. -/
def hostSlashLen : List Char → Option Nat
  | [] => none
  | c :: rest =>
    if c == '/' then some 1
    else if isHostChar c then (hostSlashLen rest).map (· + 1)
    else none

/-- Consume the maximal run of `s`/`S` at the head (the `s*` in `https*`),
returning its length and the remainder. -/
def dropSCount : List Char → Nat × List Char
  | [] => (0, [])
  | c :: rest =>
    if c.toLower == 's' then ((dropSCount rest).1 + 1, (dropSCount rest).2)
    else (0, c :: rest)

/-- Expect the literal `://` at the head; return the remainder. -/
def expectCSS : List Char → Option (List Char)
  | a :: b :: c :: rest => if a = ':' ∧ b = '/' ∧ c = '/' then some rest else none
  | _ => none

/-- Length of the regex match of `^https*:\/\/[a-z 0-9 \.\-\:]*\/` (with
`re.IGNORECASE`) against the given characters, or `none` when the regex
does not match: `h t t p`, then any number of `s`, then `://`, then class
characters up to and including the first `/`. -/
def matchLen (cs : List Char) : Option Nat :=
  match cs with
  | c1 :: c2 :: c3 :: c4 :: rest =>
    if c1.toLower == 'h' && c2.toLower == 't' && c3.toLower == 't' && c4.toLower == 'p' then
      (expectCSS (dropSCount rest).2).bind
        (fun rest3 => (hostSlashLen rest3).map (fun h => 4 + (dropSCount rest).1 + 3 + h))
    else none
  | _ => none

/-- The per-URL step of `_charts_from_history`:
`re.search(regex, url, flags=re.IGNORECASE).group(0)`, i.e. the matched
portion of `url` in its original case, or `none` when the regex fails and
the `AttributeError` branch skips the URL. The spec names this operation
`normalize`. -/
def normalize (url : String) : Option String :=
  (matchLen url.toList).map (fun n => String.mk (url.toList.take n))

/-! ## Counting and ranking (`Counter(stripped_urls).most_common(self.top)`) -/

/-- First occurrences of each string, in order of first appearance
(fuel-structured so that it evaluates by kernel reduction; the fuel is the
list length, which always suffices). -/
def firstOccsF : Nat → List String → List String
  | 0, _ => []
  | _, [] => []
  | fuel + 1, a :: rest => a :: firstOccsF fuel (rest.filter (fun b => b != a))

/-- The distinct strings of `l` in first-occurrence order: the key order of
the insertion-ordered dict underlying `collections.Counter`. -/
def firstOccs (l : List String) : List String :=
  firstOccsF l.length l

/-- The `Counter(l)` items: each distinct string of `l`, in first-insertion
order, paired with its number of occurrences in `l`. -/
def tally (l : List String) : List (String × Nat) :=
  (firstOccs l).map (fun s => (s, l.count s))

/-- Insert an entry into a count-descending list, after all entries of
count ≥ its own (the insertion step of a stable descending sort). -/
def insertDesc (x : String × Nat) : List (String × Nat) → List (String × Nat)
  | [] => [x]
  | y :: ys => if y.2 < x.2 then x :: y :: ys else y :: insertDesc x ys

/-- Stable sort by count descending: entries with equal counts keep their
input order, matching `heapq.nlargest`/`sorted(..., reverse=True)` used by
`Counter.most_common`. -/
def sortDesc (l : List (String × Nat)) : List (String × Nat) :=
  l.foldl (fun acc x => insertDesc x acc) []

/-- `Counter(l).most_common(n)`: the `n` highest-count entries, count
descending, ties in first-insertion order. Python's `heapq.nlargest`
returns `[]` for `n ≤ 0`, hence the `Int.toNat`. -/
def most_common (n : Int) (l : List String) : List (String × Nat) :=
  (sortDesc (tally l)).take n.toNat

/-! ## Pipeline and presenter (`History_Handler.create_charts` and helpers) -/

/-- `config.DEFAULT_CHART`. -/
def DEFAULT_CHART : Int := 10

/-- `config.MAX_CHART`. -/
def MAX_CHART : Int := 100

/-- The skipping loop of `_charts_from_history`: left fold over the
history, appending each regex match to `stripped_urls` and counting a
skipped URL on each regex failure. -/
def processHistory (history : List String) : List String × Nat :=
  history.foldl
    (fun acc u =>
      match normalize u with
      | some o => (acc.1 ++ [o], acc.2)
      | none => (acc.1, acc.2 + 1))
    ([], 0)

/-- The `stripped_urls` list built by `_charts_from_history`. -/
def stripped_urls (history : List String) : List String :=
  (processHistory history).1

/-- The `skipped_urls` counter of `_charts_from_history` (reported in
aggregate via `log.info`, never as an error). -/
def skipped_urls (history : List String) : Nat :=
  (processHistory history).2

/-- `f"{visits:n}"`: locale-aware integer formatting. Under the `C`/POSIX
locale installed by `locale.setlocale(locale.LC_ALL, "")` with a default
environment there is no digit grouping, so this is plain decimal. -/
def formatCount (n : Nat) : String := toString n

/-- `_charts_from_history`: chart of the `top` most common origins, visits
formatted for display. -/
def charts_from_history (top : Int) (history : List String) : List (String × String) :=
  (most_common top (stripped_urls history)).map (fun p => (p.1, formatCount p.2))

/-- `if top: self.top = top if top <= config.MAX_CHART else config.MAX_CHART`:
`None` and `0` are falsy and keep the current value (the default 10);
anything else is clamped to `MAX_CHART`. -/
def effectiveTop (top : Option Int) (current : Int) : Int :=
  match top with
  | none => current
  | some t => if t = 0 then current else if t ≤ MAX_CHART then t else MAX_CHART

/-- Left-justify `s` in a field of width `w` filled with `c` (Python
`'{:c<w}'`); strings at least `w` long are returned unchanged. -/
def padRightWith (c : Char) (w : Nat) (s : String) : String :=
  s ++ String.mk (List.replicate (w - s.length) c)

/-- Python `'{:02}'`: the rank zero-padded to two digits. -/
def rank2 (i : Nat) : String :=
  if i < 10 then "0" ++ toString i else toString i

/-- Two-digit zero padding for day and a `%b`-style month abbreviation
(English, as under the `C` locale). -/
def pad2 (n : Nat) : String :=
  if n < 10 then "0" ++ toString n else toString n

/-- `%b` month abbreviations under the `C` locale. -/
def monthAbbrev : Nat → String
  | 1 => "Jan" | 2 => "Feb" | 3 => "Mar" | 4 => "Apr" | 5 => "May" | 6 => "Jun"
  | 7 => "Jul" | 8 => "Aug" | 9 => "Sep" | 10 => "Oct" | 11 => "Nov" | 12 => "Dec"
  | _ => ""

/-- The reformatting in `create_charts`:
`datetime.strptime(self.since, "%Y-%m-%d").strftime("%d %b, %Y")`. -/
def reformatDate (d : Date) : String :=
  pad2 d.day ++ " " ++ monthAbbrev d.month ++ ", " ++ toString d.year

/-- The CLI header line `f"Top {self.top} visited URLs since [{self.since}]"`. -/
def cliHeader (top : Int) (since : String) : String :=
  "Top " ++ toString top ++ " visited URLs since [" ++ since ++ "]"

/-- The CLI column header `"{i:.<3}{url:.<{padding}}{visits}"` with
`i="#"`, `url="url"`, `visits="visits"`. -/
def cliColumnHeader (padding : Nat) : String :=
  padRightWith '.' 3 "#" ++ padRightWith '.' padding "url" ++ "visits"

/-- One CLI chart row `'{i:02} {url:{padding}}{visits}'`. -/
def cliRow (padding : Nat) (rank : Nat) (entry : String × String) : String :=
  rank2 rank ++ " " ++ padRightWith ' ' padding entry.1 ++ entry.2

/-- The console lines printed by the CLI branch of `create_charts`, in
order. `none` models the uncaught `ValueError` raised by
`max([len(url) for url, visits in charts])` when `charts` is empty,
which aborts the branch before anything is printed. -/
def cliLines (top : Int) (since : String) (charts : List (String × String)) : Option (List String) :=
  if charts.isEmpty then none
  else
    some ([""] ++ [cliHeader top since]
      ++ [cliColumnHeader ((charts.map (fun e => e.1.length)).foldl max 0 + 5)]
      ++ charts.enum.map
          (fun p => cliRow ((charts.map (fun e => e.1.length)).foldl max 0 + 5) (p.1 + 1) p.2)
      ++ [""])

/-- `error_msg` in `create_charts`, logged via `log.error` and printed to
the console when console logging is off. -/
def jinjaErrorMsg : String :=
  "HTML view is unavailable. Please execute 'pip install jinja2' and try again"

/-- Observable outcome of one `create_charts` run. -/
structure RunResult where
  usedCli : Bool
  chart : List (String × String)
  lines : List String
  diagnostics : List String
deriving DecidableEq, Repr

/-- `History_Handler.create_charts`: clamp `top`, force CLI mode when
jinja2 failed to import, build the chart, reformat the cutoff date, and
render. The HTML branch hands the chart to `Html_Handler.write_html`
(which catches its own I/O failures, so it always returns); the CLI
branch prints `cliLines` and, when jinja2 is missing, emits the
remediation diagnostic afterwards. `none` models an uncaught exception. -/
def create_charts (jinja2Available : Bool) (top : Option Int) (cli : Bool)
    (history : List String) (since : Date) : Option RunResult :=
  if (if jinja2Available then cli else true) then
    (cliLines (effectiveTop top DEFAULT_CHART) (reformatDate since)
        (charts_from_history (effectiveTop top DEFAULT_CHART) history)).map
      (fun ls => ⟨true, charts_from_history (effectiveTop top DEFAULT_CHART) history, ls,
        if jinja2Available then [] else [jinjaErrorMsg]⟩)
  else
    some ⟨false, charts_from_history (effectiveTop top DEFAULT_CHART) history, [], []⟩

/-! ## History source (`_get_history_age`) -/

/-- The query `SELECT visit_time FROM visits WHERE visit_time > 0 ORDER BY
visit_time ASC LIMIT 1`: the minimum positive visit timestamp, if any. -/
def minPositiveVisit (visits : List Int) : Option Int :=
  (visits.filter (fun t => 0 < t)).min?

/-- `_get_history_age`: decode the query result. `none` models the
`IndexError` raised by `self._query_db(sql_query)[0]` on an empty result
set (a store with no valid visit). -/
def get_history_age (visits : List Int) : Option Date :=
  match minPositiveVisit visits with
  | none => none
  | some t => date_from_webkit t.toNat

/-- Decidable check that a list of characters occurs contiguously inside
another (used to state what a printed line mentions). -/
def hasSegment : List Char → List Char → Bool
  | [], needle => needle.isEmpty
  | c :: rest, needle => ((c :: rest).take needle.length == needle) || hasSegment rest needle

/-! ## Lemmas about the calendar model -/

theorem isLeap_iff (y : Nat) :
    isLeap y = true ↔ ((y % 4 = 0 ∧ y % 100 ≠ 0) ∨ y % 400 = 0) := by
  simp [isLeap]

theorem yearLength_def (y : Nat) :
    yearLength y = if (y % 4 = 0 ∧ y % 100 ≠ 0) ∨ y % 400 = 0 then 366 else 365 := by
  by_cases h : (y % 4 = 0 ∧ y % 100 ≠ 0) ∨ y % 400 = 0
  · rw [if_pos h]; unfold yearLength; rw [if_pos ((isLeap_iff y).mpr h)]
  · rw [if_neg h]; unfold yearLength
    rw [if_neg (fun hb => h ((isLeap_iff y).mp hb))]

theorem leapCount_succ (y : Nat) (hy : 1 ≤ y) :
    leapCount y = leapCount (y - 1) + (if (y % 4 = 0 ∧ y % 100 ≠ 0) ∨ y % 400 = 0 then 1 else 0) := by
  unfold leapCount; split_ifs with h <;> omega

theorem leapCount_le (a b : Nat) (h : a ≤ b) : leapCount a ≤ leapCount b := by
  unfold leapCount; omega

theorem leapCount_cycle (e x : Nat) : leapCount (400 * e + x) = 97 * e + leapCount x := by
  unfold leapCount
  have h4 : (400 * e + x) / 4 = 100 * e + x / 4 := by omega
  have h100 : (400 * e + x) / 100 = 4 * e + x / 100 := by omega
  have h400 : (400 * e + x) / 400 = e + x / 400 := by omega
  rw [h4, h100, h400]
  omega

theorem leapCount_1600 : leapCount 1600 = 388 := by
  norm_num [leapCount]

theorem leapCount_2000 : leapCount 2000 = 485 := by
  norm_num [leapCount]

theorem daysBeforeYear_succ (y : Nat) (hy : 1601 ≤ y) :
    daysBeforeYear (y + 1) = daysBeforeYear y + yearLength y := by
  rw [yearLength_def]
  have h1 := leapCount_succ y (by omega)
  have h2 := leapCount_le 1600 (y - 1) (by omega)
  unfold daysBeforeYear
  simp only [Nat.add_sub_cancel]
  split_ifs at h1 ⊢ with h <;> omega

theorem sumYL_snoc : ∀ (k y0 : Nat), sumYL y0 (k + 1) = sumYL y0 k + yearLength (y0 + k)
  | 0, y0 => by simp [sumYL]
  | k + 1, y0 => by
    have h1 : sumYL y0 (k + 1 + 1) = yearLength y0 + sumYL (y0 + 1) (k + 1) := rfl
    have h2 : sumYL y0 (k + 1) = yearLength y0 + sumYL (y0 + 1) k := rfl
    rw [h1, sumYL_snoc k (y0 + 1), h2]
    have h3 : y0 + 1 + k = y0 + (k + 1) := by omega
    rw [h3]; omega

theorem daysBeforeYear_1601_add : ∀ j : Nat, daysBeforeYear (1601 + j) = sumYL 1601 j
  | 0 => by unfold daysBeforeYear leapCount sumYL; omega
  | j + 1 => by
    have h1 : 1601 + (j + 1) = (1601 + j) + 1 := by omega
    rw [h1, daysBeforeYear_succ (1601 + j) (by omega), daysBeforeYear_1601_add j,
      sumYL_snoc j 1601]

theorem yearLength_cycle (e j : Nat) :
    yearLength (1601 + 400 * e + j) = yearLength (1601 + j) := by
  rw [yearLength_def, yearLength_def]
  have h4 : (1601 + 400 * e + j) % 4 = (1601 + j) % 4 := by omega
  have h100 : (1601 + 400 * e + j) % 100 = (1601 + j) % 100 := by omega
  have h400 : (1601 + 400 * e + j) % 400 = (1601 + j) % 400 := by omega
  rw [h4, h100, h400]

theorem sumYL_congr : ∀ (j y0 y1 : Nat),
    (∀ i, i < j → yearLength (y0 + i) = yearLength (y1 + i)) → sumYL y0 j = sumYL y1 j
  | 0, _, _, _ => rfl
  | j + 1, y0, y1, h => by
    have h0 : yearLength y0 = yearLength y1 := by simpa using h 0 (by omega)
    have ht : sumYL (y0 + 1) j = sumYL (y1 + 1) j := by
      refine sumYL_congr j (y0 + 1) (y1 + 1) (fun i hi => ?_)
      have e0 : y0 + 1 + i = y0 + (i + 1) := by omega
      have e1 : y1 + 1 + i = y1 + (i + 1) := by omega
      rw [e0, e1]; exact h (i + 1) (by omega)
    show yearLength y0 + sumYL (y0 + 1) j = yearLength y1 + sumYL (y1 + 1) j
    rw [h0, ht]

theorem sumYL_cycle (e j : Nat) : sumYL (1601 + 400 * e) j = sumYL 1601 j := by
  refine sumYL_congr j (1601 + 400 * e) 1601 (fun i _ => ?_)
  have h1 : 1601 + 400 * e + i = 1601 + 400 * e + i := rfl
  have h2 : yearLength (1601 + 400 * e + i) = yearLength (1601 + i) := yearLength_cycle e i
  exact h2

theorem daysBeforeYear_cycle (e j : Nat) :
    daysBeforeYear (1601 + 400 * e + j) = e * 146097 + daysBeforeYear (1601 + j) := by
  unfold daysBeforeYear
  have e1 : 1601 + 400 * e + j - 1 = 400 * e + (1600 + j) := by omega
  have e2 : 1601 + j - 1 = 1600 + j := by omega
  rw [e1, e2, leapCount_cycle, leapCount_1600]
  have h2 := leapCount_le 1600 (1600 + j) (by omega)
  rw [leapCount_1600] at h2
  omega

theorem daysBeforeYear_era_bound (j : Nat) (hj : j < 400) :
    daysBeforeYear (1602 + j) ≤ 146097 := by
  unfold daysBeforeYear
  have e2 : 1602 + j - 1 = 1601 + j := by omega
  rw [e2, leapCount_1600]
  have h1 := leapCount_le (1601 + j) 2000 (by omega)
  rw [leapCount_2000] at h1
  omega

theorem findYear_spec : ∀ (j fuel y0 r : Nat), j ≤ fuel → r < yearLength (y0 + j) →
    findYear fuel y0 (sumYL y0 j + r) = (y0 + j, r)
  | 0, fuel, y0, r, _, hr => by
    cases fuel with
    | zero => simp [findYear, sumYL]
    | succ f =>
      have hr0 : r < yearLength y0 := by simpa using hr
      simp [findYear, sumYL, hr0]
  | j + 1, fuel, y0, r, hf, hr => by
    obtain ⟨f, rfl⟩ : ∃ f, fuel = f + 1 := ⟨fuel - 1, by omega⟩
    have hs : sumYL y0 (j + 1) + r = yearLength y0 + (sumYL (y0 + 1) j + r) := by
      show yearLength y0 + sumYL (y0 + 1) j + r = _
      omega
    rw [hs]
    unfold findYear
    rw [if_neg (by omega)]
    have hsub : yearLength y0 + (sumYL (y0 + 1) j + r) - yearLength y0
        = sumYL (y0 + 1) j + r := by omega
    rw [hsub]
    have hr2 : r < yearLength (y0 + 1 + j) := by
      have e1 : y0 + 1 + j = y0 + (j + 1) := by omega
      rw [e1]; exact hr
    have := findYear_spec j f (y0 + 1) r (by omega) hr2
    rw [this]
    have e2 : y0 + 1 + j = y0 + (j + 1) := by omega
    rw [e2]

theorem findMonth_spec : ∀ (k fuel y m0 r : Nat), k ≤ fuel → r < daysInMonth y (m0 + k) →
    findMonth fuel y m0 (msum y m0 k + r) = (m0 + k, r)
  | 0, fuel, y, m0, r, _, hr => by
    cases fuel with
    | zero => simp [findMonth, msum]
    | succ f =>
      have hr0 : r < daysInMonth y m0 := by simpa using hr
      simp [findMonth, msum, hr0]
  | k + 1, fuel, y, m0, r, hf, hr => by
    obtain ⟨f, rfl⟩ : ∃ f, fuel = f + 1 := ⟨fuel - 1, by omega⟩
    have hs : msum y m0 (k + 1) + r = daysInMonth y m0 + (msum y (m0 + 1) k + r) := by
      show daysInMonth y m0 + msum y (m0 + 1) k + r = _
      omega
    rw [hs]
    unfold findMonth
    rw [if_neg (by omega)]
    have hsub : daysInMonth y m0 + (msum y (m0 + 1) k + r) - daysInMonth y m0
        = msum y (m0 + 1) k + r := by omega
    rw [hsub]
    have hr2 : r < daysInMonth y (m0 + 1 + k) := by
      have e1 : m0 + 1 + k = m0 + (k + 1) := by omega
      rw [e1]; exact hr
    have := findMonth_spec k f y (m0 + 1) r (by omega) hr2
    rw [this]
    have e2 : m0 + 1 + k = m0 + (k + 1) := by omega
    rw [e2]

theorem dayOfYear_lt (y m dd : Nat) (h1 : 1 ≤ m) (h2 : m ≤ 12) (h3 : 1 ≤ dd)
    (h4 : dd ≤ daysInMonth y m) : msum y 1 (m - 1) + (dd - 1) < yearLength y := by
  cases hL : isLeap y <;> interval_cases m <;>
    simp_all [msum, daysInMonth, yearLength] <;> omega

theorem dateOfDays_toDays (d : Date) (hv : ValidDate d) : dateOfDays (toDays d) = d := by
  obtain ⟨y, m, dd⟩ := d
  unfold ValidDate at hv
  obtain ⟨hy1, hy2, hm1, hm2, hd1, hd2⟩ := hv
  simp only at hy1 hy2 hm1 hm2 hd1 hd2
  have hr : msum y 1 (m - 1) + (dd - 1) < yearLength y := dayOfYear_lt y m dd hm1 hm2 hd1 hd2
  obtain ⟨e, j, hj, hyk⟩ : ∃ e j, j < 400 ∧ y = 1601 + 400 * e + j :=
    ⟨(y - 1601) / 400, (y - 1601) % 400, by omega, by omega⟩
  have hsplit : daysBeforeYear y = e * 146097 + daysBeforeYear (1601 + j) := by
    rw [hyk]; exact daysBeforeYear_cycle e j
  have hylj : yearLength y = yearLength (1601 + j) := by
    rw [hyk]; exact yearLength_cycle e j
  have hnext : daysBeforeYear (1601 + j) + yearLength (1601 + j) = daysBeforeYear (1602 + j) := by
    have h := daysBeforeYear_succ (1601 + j) (by omega)
    have e1 : 1601 + j + 1 = 1602 + j := by omega
    rw [e1] at h; omega
  have hBlt : daysBeforeYear (1601 + j) + (msum y 1 (m - 1) + (dd - 1)) < 146097 := by
    have := daysBeforeYear_era_bound j hj
    omega
  have hn : toDays ⟨y, m, dd⟩
      = e * 146097 + (daysBeforeYear (1601 + j) + (msum y 1 (m - 1) + (dd - 1))) := by
    unfold toDays
    simp only
    omega
  have hdiv : toDays ⟨y, m, dd⟩ / 146097 = e := by omega
  have hmod : toDays ⟨y, m, dd⟩ % 146097
      = daysBeforeYear (1601 + j) + (msum y 1 (m - 1) + (dd - 1)) := by omega
  unfold dateOfDays
  rw [hdiv, hmod]
  have hsum : daysBeforeYear (1601 + j) = sumYL (1601 + 400 * e) j := by
    rw [daysBeforeYear_1601_add, sumYL_cycle]
  have hfy : findYear 399 (1601 + e * 400) (daysBeforeYear (1601 + j)
      + (msum y 1 (m - 1) + (dd - 1))) = (y, msum y 1 (m - 1) + (dd - 1)) := by
    have e400 : 1601 + e * 400 = 1601 + 400 * e := by omega
    rw [e400, hsum, findYear_spec j 399 (1601 + 400 * e) _ (by omega)
      (by rw [show 1601 + 400 * e + j = y from hyk.symm]; exact hr)]
    rw [show 1601 + 400 * e + j = y from hyk.symm]
  have hfm : findMonth 11 y 1 (msum y 1 (m - 1) + (dd - 1)) = (m, dd - 1) := by
    have := findMonth_spec (m - 1) 11 y 1 (dd - 1) (by omega)
      (by rw [show 1 + (m - 1) = m by omega]; omega)
    rw [this, show 1 + (m - 1) = m by omega]
  unfold dateOfDaysAux
  rw [hfy]
  simp only
  rw [hfm]
  simp only
  rw [show dd - 1 + 1 = dd by omega]

theorem numDigits_eq_eleven (n : Nat) (h1 : 10000000000 ≤ n) (h2 : n < 100000000000) :
    numDigits n = 11 := by
  unfold numDigits
  repeat rw [if_neg (by omega)]
  rw [if_pos h2]

/-- C1, amended: the codec round-trip `date_from_webkit (date_to_webkit d) = d`
holds not on all of 1601–9999 but exactly on the dates whose day index from
1601-01-01 lies in [115741, 1157407] (1917-11-22 through 4769-11-16) — the
dates whose seconds-since-epoch count `toDays d * 86400` has 11 decimal
digits, so that the trailing-zero padding `'{:<017d}'` in `date_to_webkit`
coincides with a seconds-to-microseconds conversion. -/
theorem C1_roundtrip_amended (d : Date) (hv : ValidDate d)
    (hlo : 115741 ≤ toDays d) (hhi : toDays d ≤ 1157407) :
    date_from_webkit (date_to_webkit d) = some d := by
  have hS1 : 10000000000 ≤ toDays d * 86400 := by omega
  have hS2 : toDays d * 86400 < 100000000000 := by omega
  have hw : date_to_webkit d = toDays d * 86400 * 10 ^ 6 := by
    unfold date_to_webkit pad17
    rw [numDigits_eq_eleven _ hS1 hS2]
    norm_num
  have hdiv : toDays d * 86400 * 10 ^ 6 / 86400000000 = toDays d := by
    have e1 : toDays d * 86400 * 10 ^ 6 = toDays d * 86400000000 := by ring
    rw [e1, Nat.mul_div_cancel _ (by norm_num)]
  rw [hw]
  unfold date_from_webkit
  have hmax : toDays d ≤ maxDays := by
    have h15 : (1157407 : Nat) ≤ maxDays := by decide
    omega
  rw [hdiv, if_pos hmax]
  exact congrArg some (dateOfDays_toDays d hv)

/-! ## Lemmas about the URL normalizer -/

theorem isHostChar_ne_slash {c : Char} (h : isHostChar c = true) : c ≠ '/' := by
  intro hc
  subst hc
  exact absurd h (by decide)

theorem expectCSS_eq_some (l r : List Char) :
    expectCSS l = some r ↔ l = ':' :: '/' :: '/' :: r := by
  rcases l with _ | ⟨a, _ | ⟨b, _ | ⟨c, tl⟩⟩⟩ <;> simp [expectCSS]
  tauto

theorem hostSlashLen_eq_some : ∀ (l : List Char) (n : Nat), hostSlashLen l = some n →
    ∃ host rest, l = host ++ '/' :: rest ∧ (∀ c ∈ host, isHostChar c = true) ∧ n = host.length + 1
  | [], n, h => by simp [hostSlashLen] at h
  | c :: t, n, h => by
    unfold hostSlashLen at h
    by_cases hc : c = '/'
    · subst hc
      rw [if_pos (by rfl)] at h
      exact ⟨[], t, by simp, by simp, by simpa using h.symm⟩
    · rw [if_neg (by simpa using hc)] at h
      by_cases hh : isHostChar c = true
      · rw [if_pos hh] at h
        obtain ⟨m, hm, hmn⟩ := Option.map_eq_some'.mp h
        obtain ⟨host, rest, h1, h2, h3⟩ := hostSlashLen_eq_some t m hm
        refine ⟨c :: host, rest, by simp [h1], ?_, by simp; omega⟩
        intro x hx
        rcases List.mem_cons.mp hx with rfl | hx
        · exact hh
        · exact h2 x hx
      · rw [if_neg hh] at h
        simp at h

theorem hostSlashLen_append : ∀ (host : List Char), (∀ c ∈ host, isHostChar c = true) →
    ∀ rest, hostSlashLen (host ++ '/' :: rest) = some (host.length + 1)
  | [], _, rest => by simp [hostSlashLen]
  | c :: t, h, rest => by
    have hc : isHostChar c = true := h c (by simp)
    have hne : c ≠ '/' := isHostChar_ne_slash hc
    show hostSlashLen (c :: (t ++ '/' :: rest)) = _
    unfold hostSlashLen
    rw [if_neg (by simpa using hne), if_pos hc,
      hostSlashLen_append t (fun x hx => h x (by simp [hx])) rest]
    simp [Option.map_some]

theorem dropSCount_decomp : ∀ l : List Char, ∃ ss : List Char,
    l = ss ++ (dropSCount l).2 ∧ (dropSCount l).1 = ss.length ∧ ∀ c ∈ ss, c.toLower = 's'
  | [] => ⟨[], by simp [dropSCount]⟩
  | c :: t => by
    by_cases hc : c.toLower = 's'
    · obtain ⟨ss, h1, h2, h3⟩ := dropSCount_decomp t
      refine ⟨c :: ss, ?_, ?_, ?_⟩
      · have h2nd : (dropSCount (c :: t)).2 = (dropSCount t).2 := by simp [dropSCount, hc]
        rw [h2nd, List.cons_append]
        exact congrArg (c :: ·) h1
      · have h1st : (dropSCount (c :: t)).1 = (dropSCount t).1 + 1 := by simp [dropSCount, hc]
        rw [h1st, h2]
        simp
      · intro x hx
        rcases List.mem_cons.mp hx with rfl | hx
        · exact hc
        · exact h3 x hx
    · refine ⟨[], ?_, ?_, by simp⟩
      · have h2nd : (dropSCount (c :: t)).2 = c :: t := by simp [dropSCount, hc]
        rw [h2nd]
        simp
      · have h1st : (dropSCount (c :: t)).1 = 0 := by simp [dropSCount, hc]
        rw [h1st]
        simp

theorem dropSCount_append : ∀ (ss : List Char), (∀ c ∈ ss, c.toLower = 's') →
    ∀ l, dropSCount (ss ++ ':' :: l) = (ss.length, ':' :: l)
  | [], _, l => by
    show dropSCount (':' :: l) = _
    unfold dropSCount
    rw [if_neg (by decide)]
    simp
  | c :: t, h, l => by
    have hc : (c.toLower == 's') = true := (beq_iff_eq).mpr (h c (by simp))
    show dropSCount (c :: (t ++ ':' :: l)) = _
    unfold dropSCount
    rw [if_pos hc, dropSCount_append t (fun x hx => h x (by simp [hx])) l]
    simp

/-- After the scheme, the matched length decomposes the input exactly. -/
theorem matchLen_eq_some_iff (cs : List Char) (n : Nat) :
    matchLen cs = some n ↔ ∃ c1 c2 c3 c4 ss host rest,
      cs = c1 :: c2 :: c3 :: c4 :: (ss ++ ':' :: '/' :: '/' :: (host ++ '/' :: rest)) ∧
      c1.toLower = 'h' ∧ c2.toLower = 't' ∧ c3.toLower = 't' ∧ c4.toLower = 'p' ∧
      (∀ c ∈ ss, c.toLower = 's') ∧ (∀ c ∈ host, isHostChar c = true) ∧
      n = 4 + ss.length + 3 + (host.length + 1) := by
  constructor
  · intro h
    rcases cs with _ | ⟨c1, _ | ⟨c2, _ | ⟨c3, _ | ⟨c4, rest⟩⟩⟩⟩
    · simp [matchLen] at h
    · simp [matchLen] at h
    · simp [matchLen] at h
    · simp [matchLen] at h
    simp only [matchLen] at h
    by_cases hb : (c1.toLower == 'h' && c2.toLower == 't' && c3.toLower == 't'
        && c4.toLower == 'p') = true
    case neg => rw [if_neg hb] at h; simp at h
    rw [if_pos hb] at h
    have hb4 := hb
    simp only [Bool.and_eq_true, beq_iff_eq] at hb4
    obtain ⟨⟨⟨h1, h2⟩, h3⟩, h4⟩ := hb4
    obtain ⟨rest3, hcss, h⟩ := Option.bind_eq_some.mp h
    obtain ⟨m, hm, hmn⟩ := Option.map_eq_some'.mp h
    obtain ⟨host, rest4, hh1, hh2, hh3⟩ := hostSlashLen_eq_some rest3 m hm
    obtain ⟨ss, hs1, hs2, hs3⟩ := dropSCount_decomp rest
    have hr2 : (dropSCount rest).2 = ':' :: '/' :: '/' :: rest3 :=
      (expectCSS_eq_some _ _).mp hcss
    refine ⟨c1, c2, c3, c4, ss, host, rest4, ?_, h1, h2, h3, h4, hs3, hh2, ?_⟩
    · rw [hs1, hr2, hh1]
    · omega
  · rintro ⟨c1, c2, c3, c4, ss, host, rest, rfl, h1, h2, h3, h4, hss, hhost, rfl⟩
    simp only [matchLen]
    rw [if_pos (by rw [h1, h2, h3, h4]; rfl)]
    have hd : dropSCount (ss ++ ':' :: '/' :: '/' :: (host ++ '/' :: rest))
        = (ss.length, ':' :: '/' :: '/' :: (host ++ '/' :: rest)) :=
      dropSCount_append ss hss ('/' :: '/' :: (host ++ '/' :: rest))
    rw [hd]
    have hcss : expectCSS (':' :: '/' :: '/' :: (host ++ '/' :: rest))
        = some (host ++ '/' :: rest) := by simp [expectCSS]
    simp only [hcss, Option.some_bind]
    rw [hostSlashLen_append host hhost rest]
    simp

theorem take_append_len : ∀ (l1 l2 : List Char) (k : Nat),
    (l1 ++ l2).take (l1.length + k) = l1 ++ l2.take k
  | [], l2, k => by simp
  | a :: t, l2, k => by
    simp only [List.cons_append, List.length_cons]
    rw [show t.length + 1 + k = (t.length + k) + 1 by omega]
    rw [List.take_succ_cons, take_append_len t l2 k]

theorem take_shape (c1 c2 c3 c4 : Char) (ss host rest : List Char) :
    (c1 :: c2 :: c3 :: c4 :: (ss ++ ':' :: '/' :: '/' :: (host ++ '/' :: rest))).take
        (4 + ss.length + 3 + (host.length + 1))
      = c1 :: c2 :: c3 :: c4 :: (ss ++ ':' :: '/' :: '/' :: (host ++ ['/'])) := by
  rw [show 4 + ss.length + 3 + (host.length + 1)
      = (ss.length + (3 + (host.length + 1))) + 1 + 1 + 1 + 1 by omega]
  simp only [List.take_succ_cons]
  rw [take_append_len ss _ (3 + (host.length + 1))]
  congr 5
  rw [show 3 + (host.length + 1) = ((host.length + 1) + 1 + 1) + 1 by omega]
  simp only [List.take_succ_cons]
  congr 3
  rw [take_append_len host ('/' :: rest) 1]
  simp

/-- Full characterization of the per-URL normalization: it succeeds exactly
on `h t t p` (case-insensitive), then any number of `s`/`S`, then `://`,
then a possibly empty run of class characters (ASCII letters, digits,
space, dot, hyphen, colon) up to a first `/`, and the returned origin is
that matched prefix of the original string. -/
theorem normalize_eq_some_iff (url o : String) :
    normalize url = some o ↔ ∃ c1 c2 c3 c4 ss host rest,
      url.toList = c1 :: c2 :: c3 :: c4 :: (ss ++ ':' :: '/' :: '/' :: (host ++ '/' :: rest)) ∧
      c1.toLower = 'h' ∧ c2.toLower = 't' ∧ c3.toLower = 't' ∧ c4.toLower = 'p' ∧
      (∀ c ∈ ss, c.toLower = 's') ∧ (∀ c ∈ host, isHostChar c = true) ∧
      o = String.mk (c1 :: c2 :: c3 :: c4 :: (ss ++ ':' :: '/' :: '/' :: (host ++ ['/']))) := by
  constructor
  · intro h
    obtain ⟨n, hn, ho⟩ := Option.map_eq_some'.mp h
    obtain ⟨c1, c2, c3, c4, ss, host, rest, hcs, h1, h2, h3, h4, hss, hhost, hlen⟩ :=
      (matchLen_eq_some_iff url.toList n).mp hn
    refine ⟨c1, c2, c3, c4, ss, host, rest, hcs, h1, h2, h3, h4, hss, hhost, ?_⟩
    rw [← ho, hcs, hlen, take_shape]
  · rintro ⟨c1, c2, c3, c4, ss, host, rest, hcs, h1, h2, h3, h4, hss, hhost, rfl⟩
    unfold normalize
    have hm : matchLen url.toList = some (4 + ss.length + 3 + (host.length + 1)) :=
      (matchLen_eq_some_iff url.toList _).mpr
        ⟨c1, c2, c3, c4, ss, host, rest, hcs, h1, h2, h3, h4, hss, hhost, rfl⟩
    rw [hm, Option.map_some', hcs, take_shape]

/-- C2, counterexample: the regex is `https*` (zero or more `s`) over a
class that also contains the space character, so `"httpss://x/"` — which
starts with neither `http://` nor `https://` — and `"http://a b/"` — whose
host contains a space — are both normalized to origins instead of being
skipped. -/
theorem C2_normalize_counterexample :
    normalize "httpss://x/" = some "httpss://x/" ∧
      "httpss://x/".toList.take 7 ≠ "http://".toList ∧
      "httpss://x/".toList.take 8 ≠ "https://".toList ∧
      normalize "http://a b/" = some "http://a b/" := by
  refine ⟨by decide, by decide, by decide, by decide⟩

/-- C2, amended: `normalize` yields an origin exactly for URLs of the shape
`h t t p` (case-insensitive) followed by any number of `s`, then `://`,
then a (possibly empty) host of ASCII letters, digits, dots, hyphens,
colons or spaces, terminated by the first `/`; the origin is that matched
prefix of the original string. In particular the spec examples hold:
`https://example.com/path` normalizes to `https://example.com/`, while
`chrome://settings` and `not a url` are skipped. -/
theorem C2_normalize_amended :
    (∀ url o : String, normalize url = some o ↔ ∃ c1 c2 c3 c4 ss host rest,
      url.toList = c1 :: c2 :: c3 :: c4 :: (ss ++ ':' :: '/' :: '/' :: (host ++ '/' :: rest)) ∧
      c1.toLower = 'h' ∧ c2.toLower = 't' ∧ c3.toLower = 't' ∧ c4.toLower = 'p' ∧
      (∀ c ∈ ss, c.toLower = 's') ∧ (∀ c ∈ host, isHostChar c = true) ∧
      o = String.mk (c1 :: c2 :: c3 :: c4 :: (ss ++ ':' :: '/' :: '/' :: (host ++ ['/'])))) ∧
    normalize "https://example.com/path" = some "https://example.com/" ∧
    normalize "chrome://settings" = none ∧
    normalize "not a url" = none :=
  ⟨normalize_eq_some_iff, by decide, by decide, by decide⟩

/-- C2, witness: the amended characterization applied to
`https://example.com/path`, whose decomposition is exhibited concretely. -/
theorem C2_normalize_witness :
    normalize "https://example.com/path" = some "https://example.com/" :=
  (C2_normalize_amended.1 "https://example.com/path" "https://example.com/").mpr
    ⟨'h', 't', 't', 'p', ['s'], "example.com".toList, "path".toList,
      by decide, by decide, by decide, by decide, by decide, by decide, by decide, by decide⟩

/-- C1, counterexample: 1601-01-02 is a valid calendar date in the claimed
1601–9999 range, but decoding its encoding yields 4338-11-29, not
1601-01-02 — the seconds count 86400 has 5 digits, so the left-justified
zero padding multiplies it by `10^12` instead of `10^6`. -/
theorem C1_roundtrip_counterexample :
    ValidDate ⟨1601, 1, 2⟩ ∧
      date_from_webkit (date_to_webkit ⟨1601, 1, 2⟩) = some ⟨4338, 11, 29⟩ ∧
      date_from_webkit (date_to_webkit ⟨1601, 1, 2⟩) ≠ some ⟨1601, 1, 2⟩ := by
  refine ⟨by decide, by decide, by decide⟩

/-- C1, witness: the amended round-trip theorem applied at 2020-06-15. -/
theorem C1_roundtrip_witness :
    ValidDate ⟨2020, 6, 15⟩ ∧ 115741 ≤ toDays ⟨2020, 6, 15⟩ ∧
      toDays ⟨2020, 6, 15⟩ ≤ 1157407 ∧
      date_from_webkit (date_to_webkit ⟨2020, 6, 15⟩) = some ⟨2020, 6, 15⟩ :=
  ⟨by decide, by decide, by decide,
    C1_roundtrip_amended ⟨2020, 6, 15⟩ (by decide) (by decide) (by decide)⟩

/-! ## Lemmas about counting and ranking -/

theorem firstOccsF_mem : ∀ (fuel : Nat) (l : List String), l.length ≤ fuel →
    ∀ a, a ∈ firstOccsF fuel l ↔ a ∈ l
  | 0, [], _, a => by simp [firstOccsF]
  | fuel + 1, [], _, a => by simp [firstOccsF]
  | 0, b :: t, h, a => by simp at h
  | fuel + 1, b :: t, h, a => by
    have hle : (t.filter (fun x => x != b)).length ≤ fuel := by
      have := List.length_filter_le (fun x => x != b) t
      simp at h
      omega
    simp only [firstOccsF, List.mem_cons,
      firstOccsF_mem fuel (t.filter (fun x => x != b)) hle a, List.mem_filter, bne_iff_ne]
    by_cases hab : a = b
    · simp [hab]
    · simp [hab]

theorem firstOccsF_nodup : ∀ (fuel : Nat) (l : List String), l.length ≤ fuel →
    (firstOccsF fuel l).Nodup
  | 0, [], _ => by simp [firstOccsF]
  | fuel + 1, [], _ => by simp [firstOccsF]
  | 0, b :: t, h => by simp at h
  | fuel + 1, b :: t, h => by
    have hle : (t.filter (fun x => x != b)).length ≤ fuel := by
      have := List.length_filter_le (fun x => x != b) t
      simp at h
      omega
    refine List.Nodup.cons ?_ (firstOccsF_nodup fuel _ hle)
    intro hb
    have := (List.mem_filter.mp ((firstOccsF_mem fuel _ hle b).mp hb)).2
    simp at this

theorem indexOf_filter_lt (p : String → Bool) : ∀ (l : List String) (x y : String),
    x ∈ l → y ∈ l → p x = true → p y = true →
    (l.filter p).indexOf x < (l.filter p).indexOf y → l.indexOf x < l.indexOf y
  | [], x, y, hx, _, _, _, _ => by simp at hx
  | a :: t, x, y, hx, hy, hpx, hpy, hlt => by
    by_cases hxa : x = a
    · subst hxa
      by_cases hya : y = x
      · subst hya
        omega
      · rw [List.indexOf_cons_self, List.indexOf_cons_ne t (fun h => hya h.symm)]
        omega
    · have hxt : x ∈ t := by
        rcases List.mem_cons.mp hx with rfl | h
        · exact absurd rfl hxa
        · exact h
      by_cases hya : y = a
      · subst hya
        rw [List.filter_cons_of_pos hpy] at hlt
        rw [List.indexOf_cons_self] at hlt
        omega
      · have hyt : y ∈ t := by
          rcases List.mem_cons.mp hy with rfl | h
          · exact absurd rfl hya
          · exact h
        rw [List.indexOf_cons_ne t (fun h => hxa h.symm),
          List.indexOf_cons_ne t (fun h => hya h.symm)]
        by_cases hpa : p a = true
        · rw [List.filter_cons_of_pos hpa, List.indexOf_cons_ne _ (fun h => hxa h.symm),
            List.indexOf_cons_ne _ (fun h => hya h.symm)] at hlt
          have := indexOf_filter_lt p t x y hxt hyt hpx hpy (by omega)
          omega
        · rw [List.filter_cons_of_neg (by simpa using hpa)] at hlt
          have := indexOf_filter_lt p t x y hxt hyt hpx hpy hlt
          omega

theorem firstOccsF_sorted : ∀ (fuel : Nat) (l : List String), l.length ≤ fuel →
    (firstOccsF fuel l).Pairwise (fun a b => l.indexOf a < l.indexOf b)
  | 0, [], _ => by simp [firstOccsF]
  | fuel + 1, [], _ => by simp [firstOccsF]
  | 0, b :: t, h => by simp at h
  | fuel + 1, b :: t, h => by
    have hle : (t.filter (fun x => x != b)).length ≤ fuel := by
      have := List.length_filter_le (fun x => x != b) t
      simp at h
      omega
    simp only [firstOccsF]
    refine List.Pairwise.cons ?_ ?_
    · intro y hy
      have hyf := (firstOccsF_mem fuel _ hle y).mp hy
      have hyt : y ∈ t := (List.mem_filter.mp hyf).1
      have hyb : y ≠ b := by simpa using (List.mem_filter.mp hyf).2
      rw [List.indexOf_cons_self, List.indexOf_cons_ne t (fun hh => hyb hh.symm)]
      omega
    · have ih := firstOccsF_sorted fuel (t.filter (fun x => x != b)) hle
      refine List.Pairwise.imp_of_mem ?_ ih
      intro x y hx hy hxy
      have hxf := (firstOccsF_mem fuel _ hle x).mp hx
      have hyf := (firstOccsF_mem fuel _ hle y).mp hy
      have hxt : x ∈ t := (List.mem_filter.mp hxf).1
      have hyt : y ∈ t := (List.mem_filter.mp hyf).1
      have hxb : x ≠ b := by simpa using (List.mem_filter.mp hxf).2
      have hyb : y ≠ b := by simpa using (List.mem_filter.mp hyf).2
      have := indexOf_filter_lt (fun x => x != b) t x y hxt hyt (by simpa using hxb)
        (by simpa using hyb) hxy
      rw [List.indexOf_cons_ne t (fun hh => hxb hh.symm),
        List.indexOf_cons_ne t (fun hh => hyb hh.symm)]
      omega

theorem tally_pairwise (l : List String) :
    (tally l).Pairwise (fun a b => l.indexOf a.1 < l.indexOf b.1) := by
  unfold tally firstOccs
  rw [List.pairwise_map]
  exact firstOccsF_sorted l.length l le_rfl

theorem tally_mem (l : List String) (p : String × Nat) (hp : p ∈ tally l) :
    p.1 ∈ l ∧ p.2 = l.count p.1 := by
  unfold tally firstOccs at hp
  obtain ⟨a, ha, rfl⟩ := List.mem_map.mp hp
  exact ⟨(firstOccsF_mem l.length l le_rfl a).mp ha, rfl⟩

theorem tally_length (l : List String) : (tally l).length = (firstOccs l).length := by
  simp [tally]

theorem firstOccs_length_eq_card (l : List String) :
    (firstOccs l).length = l.toFinset.card := by
  have hsub : (firstOccs l).toFinset = l.toFinset := by
    ext a
    simp only [List.mem_toFinset]
    exact firstOccsF_mem l.length l le_rfl a
  rw [← hsub]
  exact (List.toFinset_card_of_nodup (firstOccsF_nodup l.length l le_rfl)).symm

theorem insertDesc_mem (x : String × Nat) : ∀ (acc : List (String × Nat)) (z : String × Nat),
    z ∈ insertDesc x acc ↔ z = x ∨ z ∈ acc
  | [], z => by simp [insertDesc]
  | y :: ys, z => by
    unfold insertDesc
    split_ifs with hc
    · simp
    · simp only [List.mem_cons, insertDesc_mem x ys z]
      tauto

theorem insertDesc_length (x : String × Nat) : ∀ (acc : List (String × Nat)),
    (insertDesc x acc).length = acc.length + 1
  | [] => by simp [insertDesc]
  | y :: ys => by
    unfold insertDesc
    split_ifs with hc
    · simp
    · simp [insertDesc_length x ys]

theorem insertDesc_pairwise (Prec : (String × Nat) → (String × Nat) → Prop) (x : String × Nat) :
    ∀ acc : List (String × Nat),
    acc.Pairwise (fun a b => b.2 < a.2 ∨ (a.2 = b.2 ∧ Prec a b)) →
    (∀ y ∈ acc, y.2 = x.2 → Prec y x) →
    (insertDesc x acc).Pairwise (fun a b => b.2 < a.2 ∨ (a.2 = b.2 ∧ Prec a b))
  | [], _, _ => by simp [insertDesc]
  | y :: ys, hp, hx => by
    unfold insertDesc
    split_ifs with hc
    · refine List.Pairwise.cons ?_ hp
      intro z hz
      rcases List.mem_cons.mp hz with rfl | hz2
      · left; exact hc
      · have hyz := (List.pairwise_cons.mp hp).1 z hz2
        left
        rcases hyz with h | ⟨he, _⟩ <;> omega
    · refine List.Pairwise.cons ?_ (insertDesc_pairwise Prec x ys (List.pairwise_cons.mp hp).2
        (fun z hz hze => hx z (List.mem_cons_of_mem y hz) hze))
      intro z hz
      rcases (insertDesc_mem x ys z).mp hz with rfl | hz2
      · rcases Nat.lt_or_ge z.2 y.2 with h | h
        · left; exact h
        · right
          have hye : y.2 = z.2 := by omega
          exact ⟨hye, hx y (List.mem_cons_self y ys) hye⟩
      · exact (List.pairwise_cons.mp hp).1 z hz2

theorem sortDesc_loop_pairwise (Prec : (String × Nat) → (String × Nat) → Prop) :
    ∀ (l acc : List (String × Nat)),
    acc.Pairwise (fun a b => b.2 < a.2 ∨ (a.2 = b.2 ∧ Prec a b)) →
    l.Pairwise Prec →
    (∀ x ∈ acc, ∀ y ∈ l, x.2 = y.2 → Prec x y) →
    (l.foldl (fun a x => insertDesc x a) acc).Pairwise
      (fun a b => b.2 < a.2 ∨ (a.2 = b.2 ∧ Prec a b))
  | [], acc, hacc, _, _ => by simpa using hacc
  | y :: t, acc, hacc, hl, hcross => by
    simp only [List.foldl_cons]
    refine sortDesc_loop_pairwise Prec t (insertDesc y acc) ?_ (List.pairwise_cons.mp hl).2 ?_
    · exact insertDesc_pairwise Prec y acc hacc
        (fun z hz hze => hcross z hz y (List.mem_cons_self y t) hze)
    · intro x hx w hw hxw
      rcases (insertDesc_mem y acc x).mp hx with rfl | hx2
      · exact (List.pairwise_cons.mp hl).1 w hw
      · exact hcross x hx2 w (List.mem_cons_of_mem _ hw) hxw

theorem sortDesc_pairwise (l : List String) :
    (sortDesc (tally l)).Pairwise
      (fun a b => b.2 < a.2 ∨ (a.2 = b.2 ∧ l.indexOf a.1 < l.indexOf b.1)) :=
  sortDesc_loop_pairwise _ (tally l) [] (by simp) (tally_pairwise l) (by simp)

theorem sortDesc_loop_mem : ∀ (l acc : List (String × Nat)) (z : String × Nat),
    z ∈ l.foldl (fun a x => insertDesc x a) acc ↔ z ∈ acc ∨ z ∈ l
  | [], acc, z => by simp
  | y :: t, acc, z => by
    simp only [List.foldl_cons, sortDesc_loop_mem t (insertDesc y acc) z, insertDesc_mem,
      List.mem_cons]
    tauto

theorem sortDesc_mem (t : List (String × Nat)) (z : String × Nat) :
    z ∈ sortDesc t ↔ z ∈ t := by
  unfold sortDesc
  rw [sortDesc_loop_mem]
  simp

theorem sortDesc_loop_length : ∀ (l acc : List (String × Nat)),
    (l.foldl (fun a x => insertDesc x a) acc).length = acc.length + l.length
  | [], acc => by simp
  | y :: t, acc => by
    simp only [List.foldl_cons, sortDesc_loop_length t (insertDesc y acc), insertDesc_length]
    simp
    omega

theorem sortDesc_length (t : List (String × Nat)) : (sortDesc t).length = t.length := by
  unfold sortDesc
  rw [sortDesc_loop_length]
  simp

/-- C3: `most_common` (the chart builder over `Counter`) lists entries
`(origin, its occurrence count)` drawn from the input, ordered by count
strictly descending with equal counts ordered by first occurrence in the
input (smaller first-occurrence index first), and the two spec examples
evaluate as stated. -/
theorem C3_most_common_order :
    (∀ (l : List String) (n : Int),
      (most_common n l).Pairwise
        (fun a b => b.2 < a.2 ∨ (a.2 = b.2 ∧ l.indexOf a.1 < l.indexOf b.1)) ∧
      ∀ p ∈ most_common n l, p.1 ∈ l ∧ p.2 = l.count p.1) ∧
    most_common 2 ["A", "B", "A", "C", "B", "A"] = [("A", 3), ("B", 2)] ∧
    most_common 2 ["X", "Y", "X", "Y"] = [("X", 2), ("Y", 2)] := by
  refine ⟨fun l n => ⟨?_, ?_⟩, by decide, by decide⟩
  · exact (sortDesc_pairwise l).sublist (List.take_sublist _ _)
  · intro p hp
    exact tally_mem l p ((sortDesc_mem (tally l) p).mp (List.mem_of_mem_take hp))

/-- C3, witness: the ordering theorem applied to the spec's example list:
the head entry `("A", 3)` of the top-2 chart is an input origin with its
occurrence count. -/
theorem C3_most_common_order_witness :
    ("A", 3) ∈ most_common 2 ["A", "B", "A", "C", "B", "A"] ∧
      ("A" : String) ∈ ["A", "B", "A", "C", "B", "A"] ∧
      3 = ["A", "B", "A", "C", "B", "A"].count "A" :=
  ⟨by decide, ((C3_most_common_order.1 ["A", "B", "A", "C", "B", "A"] 2).2 ("A", 3)
      (by decide)).1,
    ((C3_most_common_order.1 ["A", "B", "A", "C", "B", "A"] 2).2 ("A", 3) (by decide)).2⟩

/-- C4: any requested `top` above the configured maximum is silently clamped
to `MAX_CHART = 100`, and the CLI header reports the clamped value. -/
theorem C4_top_clamped (t : Int) (h : MAX_CHART < t) (cur : Int) (s : String) :
    effectiveTop (some t) cur = MAX_CHART ∧ MAX_CHART = 100 ∧
      cliHeader (effectiveTop (some t) cur) s = cliHeader 100 s := by
  have he : effectiveTop (some t) cur = MAX_CHART := by
    simp only [effectiveTop]
    rw [if_neg (by unfold MAX_CHART at h; omega), if_neg (by unfold MAX_CHART at h ⊢; omega)]
  refine ⟨he, rfl, by rw [he]; rfl⟩

/-- C4, witness: requesting `top = 500` yields effective top 100 and the
header `Top 100 visited URLs since [...]`. -/
theorem C4_top_clamped_witness :
    MAX_CHART < 500 ∧ effectiveTop (some 500) DEFAULT_CHART = MAX_CHART ∧
      cliHeader (effectiveTop (some 500) DEFAULT_CHART) "01 Jan, 2020" =
        cliHeader 100 "01 Jan, 2020" ∧
      cliHeader 100 "01 Jan, 2020" = "Top 100 visited URLs since [01 Jan, 2020]" :=
  ⟨by decide, (C4_top_clamped 500 (by decide) DEFAULT_CHART "01 Jan, 2020").1,
    (C4_top_clamped 500 (by decide) DEFAULT_CHART "01 Jan, 2020").2.2, by decide⟩

/-- C5, counterexample: the claim includes a requested top-N of 0, but
`if top:` treats 0 as falsy, so the default 10 stays in effect: one origin
yields a chart of length 1, exceeding min(0, 100, 1) = 0. -/
theorem C5_length_counterexample :
    (most_common (effectiveTop (some 0) DEFAULT_CHART) ["https://a.com/"]).length = 1 ∧
      ¬ ((most_common (effectiveTop (some 0) DEFAULT_CHART) ["https://a.com/"]).length
        ≤ min ((0 : Int).toNat) (min 100 (["https://a.com/"] : List String).toFinset.card)) := by
  refine ⟨by decide, by decide⟩

/-- C5, amended: for every requested top-N `n ≥ 1` (0 and `None` fall back
to the default instead of clamping) the built chart has length at most
min(n, 100, number of distinct origins). -/
theorem C5_length_amended (origins : List String) (n : Int) (h : 1 ≤ n) :
    (most_common (effectiveTop (some n) DEFAULT_CHART) origins).length
      ≤ min n.toNat (min 100 origins.toFinset.card) := by
  unfold most_common
  have hlen : (sortDesc (tally origins)).length = origins.toFinset.card := by
    rw [sortDesc_length, tally_length, firstOccs_length_eq_card]
  rw [List.length_take, hlen]
  have he : (effectiveTop (some n) DEFAULT_CHART).toNat = min n.toNat 100 := by
    simp only [effectiveTop, MAX_CHART]
    split_ifs <;> omega
  rw [he]
  omega

/-- C5, witness: the amended bound applied at `n = 2` over two visits to a
single origin. -/
theorem C5_length_amended_witness :
    (1 : Int) ≤ 2 ∧
      (most_common (effectiveTop (some 2) DEFAULT_CHART)
          ["https://a.com/", "https://a.com/"]).length
        ≤ min ((2 : Int).toNat)
            (min 100 (["https://a.com/", "https://a.com/"] : List String).toFinset.card) :=
  ⟨by decide, C5_length_amended ["https://a.com/", "https://a.com/"] 2 (by decide)⟩

/-! ## Lemmas about the pipeline and the presenter -/

theorem processHistory_loop : ∀ (l : List String) (acc : List String × Nat),
    l.foldl
        (fun acc u =>
          match normalize u with
          | some o => (acc.1 ++ [o], acc.2)
          | none => (acc.1, acc.2 + 1)) acc
      = (acc.1 ++ l.filterMap normalize, acc.2 + l.countP (fun u => (normalize u).isNone))
  | [], acc => by simp
  | u :: t, acc => by
    rcases hnu : normalize u with _ | o
    · simp only [List.foldl_cons, hnu, processHistory_loop t,
        List.filterMap_cons, List.countP_cons]
      simp [Prod.ext_iff]
      omega
    · simp only [List.foldl_cons, hnu, processHistory_loop t,
        List.filterMap_cons, List.countP_cons]
      simp [Prod.ext_iff]

theorem processHistory_eq (history : List String) :
    processHistory history
      = (history.filterMap normalize, history.countP (fun u => (normalize u).isNone)) := by
  unfold processHistory
  rw [processHistory_loop]
  simp

theorem countP_some_add_none (l : List String) :
    l.countP (fun u => (normalize u).isSome) + l.countP (fun u => (normalize u).isNone)
      = l.length := by
  induction l with
  | nil => simp
  | cons u t ih =>
    rcases hnu : normalize u with _ | o <;>
      simp [List.countP_cons, hnu] <;> omega

theorem length_filterMap_eq_countP (l : List String) :
    (l.filterMap normalize).length = l.countP (fun u => (normalize u).isSome) := by
  induction l with
  | nil => simp
  | cons u t ih =>
    rcases hnu : normalize u with _ | o <;>
      simp [List.filterMap_cons, List.countP_cons, hnu, ih]

/-- C6, counterexample: in the end-to-end scenario (5 visits to
`https://a.com/`, 3 to `https://b.com/`, cutoff 2020-01-01, `top=1`,
`cli=true`) the run succeeds but no printed line contains the substring
`2020-01-01`: the header shows the cutoff reformatted as `01 Jan, 2020`. -/
theorem C6_end_to_end_counterexample :
    (create_charts true (some 1) true
        ["https://a.com/", "https://a.com/", "https://a.com/", "https://a.com/",
         "https://a.com/", "https://b.com/", "https://b.com/", "https://b.com/"]
        ⟨2020, 1, 1⟩).map
      (fun r => r.lines.all (fun line => !hasSegment line.toList "2020-01-01".toList))
    = some true := by decide

/-- C6, amended: the end-to-end scenario prints exactly one chart row, for
`https://a.com/` with count 5, and a header that mentions the cutoff
reformatted as `01 Jan, 2020` (the code converts `%Y-%m-%d` to
`%d %b, %Y` before printing) rather than the literal `2020-01-01`. -/
theorem C6_end_to_end_amended :
    create_charts true (some 1) true
        ["https://a.com/", "https://a.com/", "https://a.com/", "https://a.com/",
         "https://a.com/", "https://b.com/", "https://b.com/", "https://b.com/"]
        ⟨2020, 1, 1⟩
      = some ⟨true, [("https://a.com/", "5")],
          ["", "Top 1 visited URLs since [01 Jan, 2020]",
           "#..url................visits", "01 https://a.com/     5", ""], []⟩ ∧
    hasSegment "Top 1 visited URLs since [01 Jan, 2020]".toList "01 Jan, 2020".toList
      = true := by
  refine ⟨by decide, by decide⟩

/-- C7: a history whose three entries split into two normalizable URLs and
one malformed one yields a skipped count of exactly 1, and the chart input
(`stripped_urls`) consists of precisely the normalized forms of the valid
entries, so the chart reflects only those; the malformed entry is counted
in aggregate, never returned as an error value. -/
theorem C7_skip_counting (history : List String) (hlen : history.length = 3)
    (hvalid : history.countP (fun u => (normalize u).isSome) = 2) :
    skipped_urls history = 1 ∧
      stripped_urls history = history.filterMap normalize ∧
      (stripped_urls history).length = 2 ∧
      ∀ t : Int, charts_from_history t history
        = (most_common t (history.filterMap normalize)).map (fun p => (p.1, formatCount p.2)) := by
  have hp := processHistory_eq history
  have hc := countP_some_add_none history
  refine ⟨?_, ?_, ?_, ?_⟩
  · unfold skipped_urls
    rw [hp]
    simp only
    omega
  · unfold stripped_urls
    rw [hp]
  · unfold stripped_urls
    rw [hp]
    simp only
    rw [length_filterMap_eq_countP, hvalid]
  · intro t
    unfold charts_from_history stripped_urls
    rw [hp]

/-- C7, witness: the skip-counting theorem applied to a concrete store with
two valid URLs and one `chrome://` entry. -/
theorem C7_skip_counting_witness :
    (["https://a.com/x", "https://b.org/y", "chrome://settings"] : List String).length = 3 ∧
      (["https://a.com/x", "https://b.org/y", "chrome://settings"] : List String).countP
        (fun u => (normalize u).isSome) = 2 ∧
      skipped_urls ["https://a.com/x", "https://b.org/y", "chrome://settings"] = 1 ∧
      stripped_urls ["https://a.com/x", "https://b.org/y", "chrome://settings"]
        = ["https://a.com/x", "https://b.org/y",
            "chrome://settings"].filterMap normalize :=
  ⟨by decide, by decide,
    (C7_skip_counting _ (by decide) (by decide)).1,
    (C7_skip_counting _ (by decide) (by decide)).2.1⟩

/-- C8, counterexample: with jinja2 unavailable and HTML requested, a store
whose only URL is malformed produces an empty chart, and the forced CLI
branch then crashes on `max([])` before printing anything — no chart
output and no remediation diagnostic are produced. -/
theorem C8_jinja_fallback_counterexample :
    create_charts false (some 1) false ["chrome://settings"] ⟨2020, 1, 1⟩ = none := by
  decide

/-- C8, amended: whenever jinja2 is unavailable and the built chart is
nonempty, `create_charts` degrades to CLI mode regardless of the requested
mode, prints the full CLI chart output, and emits the remediation
diagnostic; when the chart is empty the CLI fallback instead dies on
`max([])` (see C10). -/
theorem C8_jinja_fallback_amended (top : Option Int) (cli : Bool) (history : List String)
    (since : Date)
    (hne : charts_from_history (effectiveTop top DEFAULT_CHART) history ≠ []) :
    ∃ res, create_charts false top cli history since = some res ∧
      res.usedCli = true ∧ res.diagnostics = [jinjaErrorMsg] ∧
      res.chart = charts_from_history (effectiveTop top DEFAULT_CHART) history ∧
      cliLines (effectiveTop top DEFAULT_CHART) (reformatDate since)
          (charts_from_history (effectiveTop top DEFAULT_CHART) history) = some res.lines := by
  have hempty : (charts_from_history (effectiveTop top DEFAULT_CHART) history).isEmpty
      = false := by
    cases hfe : (charts_from_history (effectiveTop top DEFAULT_CHART) history).isEmpty
    · rfl
    · exact absurd (List.isEmpty_iff.mp hfe) hne
  unfold create_charts
  have hcli : (if (false : Bool) then cli else true) = true := rfl
  rw [hcli, if_pos rfl]
  unfold cliLines
  rw [hempty]
  rw [if_neg (by simp)]
  exact ⟨_, rfl, rfl, rfl, rfl, rfl⟩

/-- C8, witness: the fallback theorem applied to a store with one valid
visit, requesting HTML mode with jinja2 unavailable. -/
theorem C8_jinja_fallback_witness :
    charts_from_history (effectiveTop (some 1) DEFAULT_CHART) ["https://a.com/"] ≠ [] ∧
      ∃ res, create_charts false (some 1) false ["https://a.com/"] ⟨2020, 1, 1⟩ = some res ∧
        res.usedCli = true ∧ res.diagnostics = [jinjaErrorMsg] ∧
        res.chart = charts_from_history (effectiveTop (some 1) DEFAULT_CHART) ["https://a.com/"] ∧
        cliLines (effectiveTop (some 1) DEFAULT_CHART) (reformatDate ⟨2020, 1, 1⟩)
            (charts_from_history (effectiveTop (some 1) DEFAULT_CHART) ["https://a.com/"])
          = some res.lines :=
  ⟨by decide, C8_jinja_fallback_amended (some 1) false ["https://a.com/"] ⟨2020, 1, 1⟩ (by decide)⟩

/-- C9: `_get_history_age` fails (modelled `none`, the uncaught exception on
an empty query result) when the store has no positive-timestamp visit, and
otherwise returns the decoded minimum positive visit timestamp. -/
theorem C9_oldest_visit (visits : List Int) :
    ((∀ t ∈ visits, t ≤ 0) → get_history_age visits = none) ∧
      ∀ m : Int, minPositiveVisit visits = some m →
        get_history_age visits = date_from_webkit m.toNat := by
  constructor
  · intro h
    have hm : minPositiveVisit visits = none := by
      unfold minPositiveVisit
      rw [List.filter_eq_nil_iff.mpr (fun a ha => by simpa using by have := h a ha; omega)]
      rfl
    unfold get_history_age
    rw [hm]
  · intro m hm
    unfold get_history_age
    rw [hm]

/-- C9, witness: the theorem applied to a store with timestamps
`[-5, 7, 3]` (minimum positive 3, decoding to 1601-01-01) and to a store
with only the invalid timestamp `-2`. -/
theorem C9_oldest_visit_witness :
    minPositiveVisit [-5, 7, 3] = some 3 ∧
      get_history_age [-5, 7, 3] = date_from_webkit (3 : Int).toNat ∧
      get_history_age [-5, 7, 3] = some ⟨1601, 1, 1⟩ ∧
      get_history_age [-2] = none :=
  ⟨by decide, (C9_oldest_visit [-5, 7, 3]).2 3 (by decide), by decide,
    (C9_oldest_visit [-2]).1 (by decide)⟩

/-- C10: whenever the built chart is empty — e.g. because every history URL
fails normalization — `create_charts` in CLI mode aborts with the uncaught
`ValueError` from `max([])` (modelled `none`) instead of printing an empty
table; the concrete conjunct exhibits such an input. -/
theorem C10_cli_empty_chart_crash :
    (∀ (jn : Bool) (top : Option Int) (history : List String) (since : Date),
      charts_from_history (effectiveTop top DEFAULT_CHART) history = [] →
      create_charts jn top true history since = none) ∧
    create_charts true (some 10) true ["chrome://settings"] ⟨2020, 1, 1⟩ = none := by
  constructor
  · intro jn top history since he
    unfold create_charts
    rw [if_pos (by cases jn <;> rfl), he]
    rfl
  · decide

/-- C10, witness: the crash theorem applied to a history whose only entry is
not a URL at all. -/
theorem C10_cli_empty_chart_crash_witness :
    charts_from_history (effectiveTop (some 7) DEFAULT_CHART) ["not a url"] = [] ∧
      create_charts false (some 7) true ["not a url"] ⟨2019, 5, 4⟩ = none :=
  ⟨by decide,
    C10_cli_empty_chart_crash.1 false (some 7) ["not a url"] ⟨2019, 5, 4⟩ (by decide)⟩

end ChromeCharts
